import Mathlib

/-!
Shallow embedding of the `biblioteca_storage` ink! contract
(`src/src/lib.rs`): a book catalog with a saturating `u32` id counter,
and proofs of its specified properties.

Machine integers (`u32`) are modelled as `Nat` together with the explicit
bound `u32Max`; `u32::saturating_add(1)` becomes `satAdd1`.
-/

namespace Biblioteca

/-- The maximum representable `u32` value (`u32::MAX`). -/
def u32Max : Nat := 4294967295

/-- `u32::saturating_add(1)` on a value already within `u32` range. -/
def satAdd1 (n : Nat) : Nat := min (n + 1) u32Max

/-- The genre enumeration `Genero` from the source. -/
inductive Genero where
  | Ficcao
  | Biografia
  | Poesia
  | Infantil
  | Romance
  | Outro
deriving DecidableEq, Repr

/-- `impl TryFrom<u8> for Genero`: decodes a raw integer code,
matching 0–5 to the six variants and rejecting everything else. -/
def generoTryFrom (value : Nat) : Except String Genero :=
  match value with
  | 0 => .ok .Ficcao
  | 1 => .ok .Biografia
  | 2 => .ok .Poesia
  | 3 => .ok .Infantil
  | 4 => .ok .Romance
  | 5 => .ok .Outro
  | _ => .error "Valor inválido para Genero"

/-- The book record `Livro` from the source. -/
structure Livro where
  id : Nat
  titulo : String
  genero : Genero
deriving DecidableEq, Repr

/-- The contract storage `BibliotecaStorage`: the ordered book list and
the next-id counter. -/
structure BibliotecaStorage where
  livros : List Livro
  proximo_id : Nat
deriving DecidableEq, Repr

/-- The constructor `new`: empty book list, counter at 1. -/
def new : BibliotecaStorage := ⟨[], 1⟩

/-- `adicionar_livro`: builds a `Livro` stamped with `proximo_id`, pushes
it at the end of `livros`, advances the counter with `saturating_add(1)`,
and returns the id that was assigned. -/
def adicionar_livro (s : BibliotecaStorage) (titulo : String)
    (genero : Genero) : BibliotecaStorage × Nat :=
  let livro : Livro := ⟨s.proximo_id, titulo, genero⟩
  let id_atual := s.proximo_id
  (⟨s.livros ++ [livro], satAdd1 s.proximo_id⟩, id_atual)

/-- `listar_livros`: returns a clone of the book list (`&self`, so the
state is untouched by construction). -/
def listar_livros (s : BibliotecaStorage) : List Livro :=
  s.livros

/-- The `for livro in &mut self.livros` loop of `atualizar_livro`: walks
the list, overwrites `titulo` and `genero` of the first entry whose `id`
matches and stops there, returning the new list and whether a match was
found. -/
def atualizarAux (id : Nat) (t : String) (g : Genero) :
    List Livro → List Livro × Bool
  | [] => ([], false)
  | livro :: rest =>
    if livro.id = id then (⟨livro.id, t, g⟩ :: rest, true)
    else
      let r := atualizarAux id t g rest
      (livro :: r.1, r.2)

/-- `atualizar_livro`: update the first book with the given id in place;
return whether one was found. -/
def atualizar_livro (s : BibliotecaStorage) (id : Nat) (novo_titulo : String)
    (novo_genero : Genero) : BibliotecaStorage × Bool :=
  let r := atualizarAux id novo_titulo novo_genero s.livros
  (⟨r.1, s.proximo_id⟩, r.2)

/-- The `position`-then-`remove` of `remover_livro`: deletes the first
entry whose `id` matches (later entries shift down), returning the new
list and whether a match was found. -/
def removerAux (id : Nat) : List Livro → List Livro × Bool
  | [] => ([], false)
  | livro :: rest =>
    if livro.id = id then (rest, true)
    else
      let r := removerAux id rest
      (livro :: r.1, r.2)

/-- `remover_livro`: delete the first book with the given id; return
whether one was found. -/
def remover_livro (s : BibliotecaStorage) (id : Nat) :
    BibliotecaStorage × Bool :=
  let r := removerAux id s.livros
  (⟨r.1, s.proximo_id⟩, r.2)

/-- One contract message call. -/
inductive Op where
  | add (titulo : String) (genero : Genero)
  | list
  | update (id : Nat) (titulo : String) (genero : Genero)
  | remove (id : Nat)

/-- State transition of a single message call (`listar_livros` takes
`&self` and leaves the state unchanged). -/
def step (s : BibliotecaStorage) : Op → BibliotecaStorage
  | .add t g => (adicionar_livro s t g).1
  | .list => s
  | .update i t g => (atualizar_livro s i t g).1
  | .remove i => (remover_livro s i).1

/-- Execution of a sequence of message calls. -/
def exec (s : BibliotecaStorage) : List Op → BibliotecaStorage
  | [] => s
  | op :: ops => exec (step s op) ops

/-- A state is reachable when some sequence of calls produces it from the
freshly constructed contract. -/
def Reachable (s : BibliotecaStorage) : Prop :=
  ∃ ops, exec new ops = s

/-- The ids returned by the `adicionar_livro` calls in a sequence of
message calls, in call order. -/
def addOutputs (s : BibliotecaStorage) : List Op → List Nat
  | [] => []
  | .add t g :: ops =>
      (adicionar_livro s t g).2 :: addOutputs (step s (.add t g)) ops
  | .list :: ops => addOutputs (step s .list) ops
  | .update i t g :: ops => addOutputs (step s (.update i t g)) ops
  | .remove i :: ops => addOutputs (step s (.remove i)) ops

/-- The catalog invariant claimed in the spec: live ids are pairwise
distinct and `proximo_id` is strictly above every live id. -/
def Inv (s : BibliotecaStorage) : Prop :=
  (s.livros.map Livro.id).Nodup ∧ ∀ b ∈ s.livros, b.id < s.proximo_id

instance (s : BibliotecaStorage) : Decidable (Inv s) := by
  unfold Inv; infer_instance

/-! ### Lemmas about the update loop -/

lemma atualizarAux_found_iff (id : Nat) (t : String) (g : Genero) :
    ∀ l : List Livro, (atualizarAux id t g l).2 = true ↔ ∃ b ∈ l, b.id = id := by
  intro l
  induction l with
  | nil => simp [atualizarAux]
  | cons b rest ih =>
    by_cases hb : b.id = id
    · simp [atualizarAux, hb]
    · simp [atualizarAux, hb, ih]

lemma atualizarAux_not_found (id : Nat) (t : String) (g : Genero) :
    ∀ l : List Livro, (atualizarAux id t g l).2 = false →
      (atualizarAux id t g l).1 = l := by
  intro l
  induction l with
  | nil => simp [atualizarAux]
  | cons b rest ih =>
    by_cases hb : b.id = id
    · simp [atualizarAux, hb]
    · simp only [atualizarAux, hb, if_false]
      intro h
      simp [ih h]

lemma atualizarAux_decomp (id : Nat) (t : String) (g : Genero) :
    ∀ l : List Livro, (atualizarAux id t g l).2 = true →
      ∃ pre b post, l = pre ++ b :: post ∧ (∀ x ∈ pre, x.id ≠ id) ∧
        b.id = id ∧
        (atualizarAux id t g l).1 = pre ++ (⟨b.id, t, g⟩ : Livro) :: post := by
  intro l
  induction l with
  | nil => simp [atualizarAux]
  | cons b rest ih =>
    by_cases hb : b.id = id
    · intro _
      exact ⟨[], b, rest, by simp, by simp, hb, by simp [atualizarAux, hb]⟩
    · simp only [atualizarAux, hb, if_false]
      intro h
      obtain ⟨pre, b', post, hl, hpre, hb', hres⟩ := ih h
      exact ⟨b :: pre, b', post, by simp [hl],
        by simpa [hb] using hpre, hb', by simp [hres]⟩

lemma atualizarAux_map_id (id : Nat) (t : String) (g : Genero) :
    ∀ l : List Livro,
      (atualizarAux id t g l).1.map Livro.id = l.map Livro.id := by
  intro l
  induction l with
  | nil => simp [atualizarAux]
  | cons b rest ih =>
    by_cases hb : b.id = id
    · simp [atualizarAux, hb]
    · simp [atualizarAux, hb, ih]

/-! ### Lemmas about the remove loop -/

lemma removerAux_found_iff (id : Nat) :
    ∀ l : List Livro, (removerAux id l).2 = true ↔ ∃ b ∈ l, b.id = id := by
  intro l
  induction l with
  | nil => simp [removerAux]
  | cons b rest ih =>
    by_cases hb : b.id = id
    · simp [removerAux, hb]
    · simp [removerAux, hb, ih]

lemma removerAux_not_found (id : Nat) :
    ∀ l : List Livro, (removerAux id l).2 = false →
      (removerAux id l).1 = l := by
  intro l
  induction l with
  | nil => simp [removerAux]
  | cons b rest ih =>
    by_cases hb : b.id = id
    · simp [removerAux, hb]
    · simp only [removerAux, hb, if_false]
      intro h
      simp [ih h]

lemma removerAux_decomp (id : Nat) :
    ∀ l : List Livro, (removerAux id l).2 = true →
      ∃ pre b post, l = pre ++ b :: post ∧ (∀ x ∈ pre, x.id ≠ id) ∧
        b.id = id ∧ (removerAux id l).1 = pre ++ post := by
  intro l
  induction l with
  | nil => simp [removerAux]
  | cons b rest ih =>
    by_cases hb : b.id = id
    · intro _
      exact ⟨[], b, rest, by simp, by simp, hb, by simp [removerAux, hb]⟩
    · simp only [removerAux, hb, if_false]
      intro h
      obtain ⟨pre, b', post, hl, hpre, hb', hres⟩ := ih h
      exact ⟨b :: pre, b', post, by simp [hl],
        by simpa [hb] using hpre, hb', by simp [hres]⟩

lemma removerAux_sublist (id : Nat) :
    ∀ l : List Livro, List.Sublist (removerAux id l).1 l := by
  intro l
  induction l with
  | nil => simp [removerAux]
  | cons b rest ih =>
    by_cases hb : b.id = id
    · simp [removerAux, hb]
    · simpa [removerAux, hb] using ih.cons₂ b

/-! ### Lemmas about the id counter along executions -/

lemma step_proximo_le (s : BibliotecaStorage) (op : Op)
    (hs : s.proximo_id ≤ u32Max) : (step s op).proximo_id ≤ u32Max := by
  cases op <;> simp [step, adicionar_livro, atualizar_livro, remover_livro,
    satAdd1] <;> omega

lemma step_proximo_mono (s : BibliotecaStorage) (op : Op)
    (hs : s.proximo_id ≤ u32Max) : s.proximo_id ≤ (step s op).proximo_id := by
  cases op <;> simp [step, adicionar_livro, atualizar_livro, remover_livro,
    satAdd1]
  omega

lemma addOutputs_ge (ops : List Op) :
    ∀ s : BibliotecaStorage, s.proximo_id ≤ u32Max →
      ∀ y ∈ addOutputs s ops, s.proximo_id ≤ y := by
  induction ops with
  | nil => simp [addOutputs]
  | cons op ops ih =>
    intro s hs y hy
    have hle := step_proximo_le s op hs
    have hmono := step_proximo_mono s op hs
    cases op with
    | add t g =>
      simp only [addOutputs, List.mem_cons] at hy
      rcases hy with hy | hy
      · simp [hy, adicionar_livro]
      · exact le_trans hmono (ih _ hle y hy)
    | list => exact le_trans hmono (ih _ hle y (by simpa [addOutputs] using hy))
    | update i t g =>
      exact le_trans hmono (ih _ hle y (by simpa [addOutputs] using hy))
    | remove i =>
      exact le_trans hmono (ih _ hle y (by simpa [addOutputs] using hy))

lemma addOutputs_adds (inputs : List (String × Genero)) :
    ∀ s : BibliotecaStorage, s.proximo_id + inputs.length ≤ u32Max + 1 →
      addOutputs s (inputs.map fun p => Op.add p.1 p.2) =
        List.range' s.proximo_id inputs.length := by
  induction inputs with
  | nil => simp [addOutputs]
  | cons p rest ih =>
    intro s hs
    simp only [List.map_cons, addOutputs, List.length_cons, List.range'_succ]
    refine congrArg₂ List.cons (by simp [adicionar_livro]) ?_
    cases rest with
    | nil => simp [addOutputs]
    | cons q rest2 =>
      have hlt : s.proximo_id < u32Max := by
        simp only [List.length_cons] at hs; omega
      have hstep : (step s (Op.add p.1 p.2)).proximo_id = s.proximo_id + 1 := by
        simp only [step, adicionar_livro, satAdd1]; omega
      have hrec := ih (step s (Op.add p.1 p.2))
        (by simp only [hstep, List.length_cons] at hs ⊢; omega)
      rw [hrec, hstep]

lemma exec_replicate_add_proximo (t : String) (g : Genero) :
    ∀ (n : Nat) (s : BibliotecaStorage), s.proximo_id ≤ u32Max →
      (exec s (List.replicate n (Op.add t g))).proximo_id =
        min (s.proximo_id + n) u32Max := by
  intro n
  induction n with
  | zero => intro s hs; simp [exec]; omega
  | succ n ih =>
    intro s hs
    simp only [List.replicate_succ, exec]
    rw [ih _ (step_proximo_le s _ hs)]
    simp only [step, adicionar_livro, satAdd1]
    omega

/-! ### Invariant preservation -/

lemma inv_new : Inv new := by
  constructor <;> simp [new]

lemma inv_add (s : BibliotecaStorage) (t : String) (g : Genero)
    (hinv : Inv s) (hsat : s.proximo_id < u32Max) :
    Inv (adicionar_livro s t g).1 := by
  obtain ⟨hnodup, hlt⟩ := hinv
  have hproximo : (adicionar_livro s t g).1.proximo_id = s.proximo_id + 1 := by
    simp only [adicionar_livro, satAdd1]; omega
  constructor
  · simp only [adicionar_livro, List.map_append, List.map_cons, List.map_nil]
    rw [List.nodup_append]
    refine ⟨hnodup, List.nodup_singleton _, ?_⟩
    intro a ha hmem
    simp only [List.mem_singleton] at hmem
    obtain ⟨b, hb, rfl⟩ := List.mem_map.1 ha
    exact absurd (hlt b hb) (by simp [hmem])
  · intro b hb
    rw [hproximo]
    simp only [adicionar_livro, List.mem_append, List.mem_singleton] at hb
    rcases hb with hb | rfl
    · exact Nat.lt_succ_of_lt (hlt b hb)
    · exact Nat.lt_succ_self _

lemma inv_update (s : BibliotecaStorage) (id : Nat) (t : String) (g : Genero)
    (hinv : Inv s) : Inv (atualizar_livro s id t g).1 := by
  obtain ⟨hnodup, hlt⟩ := hinv
  have hmap := atualizarAux_map_id id t g s.livros
  constructor
  · simpa only [atualizar_livro, hmap] using hnodup
  · intro b hb
    simp only [atualizar_livro] at hb ⊢
    have hbid : b.id ∈ s.livros.map Livro.id := by
      rw [← hmap]
      exact List.mem_map_of_mem Livro.id hb
    obtain ⟨b', hb', hid⟩ := List.mem_map.1 hbid
    rw [← hid]
    exact hlt b' hb'

lemma inv_remove (s : BibliotecaStorage) (id : Nat) (hinv : Inv s) :
    Inv (remover_livro s id).1 := by
  obtain ⟨hnodup, hlt⟩ := hinv
  have hsub := removerAux_sublist id s.livros
  constructor
  · exact hnodup.sublist (hsub.map Livro.id)
  · intro b hb
    exact hlt b (hsub.mem hb)

/-! ### Claim theorems -/

/-- C1: `adicionar_livro` returns the current `proximo_id`, appends exactly
one new book with that id, the given title and genre, at the end of the
list (previous books unchanged and in place), and advances `proximo_id` by
one, saturating at `u32::MAX` instead of wrapping. -/
theorem adicionar_livro_spec (s : BibliotecaStorage) (t : String)
    (g : Genero) :
    (adicionar_livro s t g).2 = s.proximo_id ∧
    (adicionar_livro s t g).1.livros =
      s.livros ++ [(⟨s.proximo_id, t, g⟩ : Livro)] ∧
    (adicionar_livro s t g).1.proximo_id =
      if s.proximo_id < u32Max then s.proximo_id + 1 else u32Max := by
  refine ⟨rfl, rfl, ?_⟩
  simp only [adicionar_livro, satAdd1]
  split <;> omega

/-- C2: `atualizar_livro` answers true exactly when a live book carries
the requested id; on success the first matching book gets the new title
and genre while its id, its position, and every other book are untouched
(and `proximo_id` is untouched); on failure the whole state is returned
unchanged together with `false`. -/
theorem atualizar_livro_spec (s : BibliotecaStorage) (id : Nat)
    (t : String) (g : Genero) :
    ((atualizar_livro s id t g).2 = true ↔ ∃ b ∈ s.livros, b.id = id) ∧
    ((atualizar_livro s id t g).2 = true →
      ∃ pre b post, s.livros = pre ++ b :: post ∧ (∀ x ∈ pre, x.id ≠ id) ∧
        b.id = id ∧
        (atualizar_livro s id t g).1.livros =
          pre ++ (⟨b.id, t, g⟩ : Livro) :: post ∧
        (atualizar_livro s id t g).1.proximo_id = s.proximo_id) ∧
    ((atualizar_livro s id t g).2 = false →
      atualizar_livro s id t g = (s, false)) := by
  refine ⟨atualizarAux_found_iff id t g s.livros, ?_, ?_⟩
  · intro h
    obtain ⟨pre, b, post, hl, hpre, hb, hres⟩ :=
      atualizarAux_decomp id t g s.livros h
    exact ⟨pre, b, post, hl, hpre, hb, hres, rfl⟩
  · intro h
    have h1 := atualizarAux_not_found id t g s.livros h
    have h2 : (atualizarAux id t g s.livros).2 = false := h
    simp only [atualizar_livro, h1, h2, Prod.mk.injEq, and_true]

/-- C2 witness: on the one-book catalog of the source's own test, updating
a missing id leaves the state untouched and reports `false`. -/
theorem atualizar_livro_spec_witness :
    atualizar_livro ⟨[⟨1, "Antigo", Genero.Ficcao⟩], 2⟩ 999 "Novo"
        Genero.Romance =
      (⟨[⟨1, "Antigo", Genero.Ficcao⟩], 2⟩, false) :=
  (atualizar_livro_spec ⟨[⟨1, "Antigo", Genero.Ficcao⟩], 2⟩ 999 "Novo"
    Genero.Romance).2.2 (by decide)

/-- C3: `remover_livro` answers true exactly when a live book carries the
requested id; on success exactly the first matching book is deleted and
the rest keep their relative order; on failure the whole state is returned
unchanged together with `false`; and (live ids being pairwise distinct) a
second removal of the same id answers `false`. -/
theorem remover_livro_spec (s : BibliotecaStorage) (id : Nat) :
    ((remover_livro s id).2 = true ↔ ∃ b ∈ s.livros, b.id = id) ∧
    ((remover_livro s id).2 = true →
      ∃ pre b post, s.livros = pre ++ b :: post ∧ (∀ x ∈ pre, x.id ≠ id) ∧
        b.id = id ∧ (remover_livro s id).1.livros = pre ++ post) ∧
    ((remover_livro s id).2 = false → remover_livro s id = (s, false)) ∧
    ((s.livros.map Livro.id).Nodup →
      (remover_livro (remover_livro s id).1 id).2 = false) := by
  refine ⟨removerAux_found_iff id s.livros, ?_, ?_, ?_⟩
  · intro h
    obtain ⟨pre, b, post, hl, hpre, hb, hres⟩ := removerAux_decomp id s.livros h
    exact ⟨pre, b, post, hl, hpre, hb, hres⟩
  · intro h
    have h1 := removerAux_not_found id s.livros h
    have h2 : (removerAux id s.livros).2 = false := h
    simp only [remover_livro, h1, h2, Prod.mk.injEq, and_true]
  · intro hnodup
    cases hfst : (removerAux id s.livros).2 with
    | false =>
      have h1 := removerAux_not_found id s.livros hfst
      simp only [remover_livro, h1]
      exact hfst
    | true =>
      obtain ⟨pre, b, post, hl, hpre, hb, hres⟩ :=
        removerAux_decomp id s.livros hfst
      cases hsnd : (removerAux id (remover_livro s id).1.livros).2 with
      | false => exact hsnd
      | true =>
        exfalso
        obtain ⟨b', hb', hb'id⟩ :=
          (removerAux_found_iff id _).1 hsnd
        rw [show (remover_livro s id).1.livros = pre ++ post from hres]
          at hb'
        rw [hl, List.map_append, List.map_cons] at hnodup
        rcases List.mem_append.1 hb' with hmem | hmem
        · exact hpre b' hmem hb'id
        · have hid : id ∈ post.map Livro.id :=
            hb'id ▸ List.mem_map_of_mem Livro.id hmem
          have := (List.nodup_append.1 hnodup).2.1
          rw [List.nodup_cons] at this
          exact this.1 (hb ▸ hid)

/-- C3 witness: on the one-book catalog of the source's own test, a second
removal of the same id answers `false`. -/
theorem remover_livro_spec_witness :
    (remover_livro
      (remover_livro ⟨[⟨1, "Livro Removível", Genero.Outro⟩], 2⟩ 1).1
      1).2 = false :=
  (remover_livro_spec ⟨[⟨1, "Livro Removível", Genero.Outro⟩], 2⟩ 1).2.2.2
    (by decide)

/-- C4 counterexample: the claimed invariant holds of the state with no
books and the counter already at `u32::MAX`, yet `adicionar_livro` breaks
it there: the new book receives id `u32::MAX` while the saturating counter
stays at `u32::MAX`, so `proximo_id` is no longer strictly above every
live id. -/
theorem inv_not_preserved_by_add_at_saturation :
    Inv ⟨[], u32Max⟩ ∧
    ¬ Inv (adicionar_livro ⟨[], u32Max⟩ "Livro A" Genero.Ficcao).1 := by
  constructor
  · constructor <;> simp [Inv]
  · intro h
    have hmem : (⟨u32Max, "Livro A", Genero.Ficcao⟩ : Livro) ∈
        (adicionar_livro ⟨[], u32Max⟩ "Livro A" Genero.Ficcao).1.livros := by
      simp [adicionar_livro]
    have hlt := h.2 _ hmem
    simp only [adicionar_livro, satAdd1] at hlt
    omega

/-- C4 (amended): the invariant — live ids pairwise distinct and
`proximo_id` strictly above every live id — holds of the freshly
constructed catalog and is preserved by `listar_livros`, `atualizar_livro`
and `remover_livro` for every input, and by `adicionar_livro` for every
input provided the counter has not yet saturated
(`proximo_id < u32::MAX`). -/
theorem invariant_preservation_spec :
    Inv new ∧
    ∀ s : BibliotecaStorage, Inv s →
      (∀ t g, s.proximo_id < u32Max → Inv (adicionar_livro s t g).1) ∧
      Inv (step s Op.list) ∧
      (∀ id t g, Inv (atualizar_livro s id t g).1) ∧
      (∀ id, Inv (remover_livro s id).1) :=
  ⟨inv_new, fun s hs =>
    ⟨fun t g h => inv_add s t g hs h, hs,
     fun id t g => inv_update s id t g hs,
     fun id => inv_remove s id hs⟩⟩

/-- C4 witness: the invariant survives an `adicionar_livro` on a concrete
one-book catalog whose counter is far from saturation. -/
theorem invariant_preservation_witness :
    Inv (adicionar_livro ⟨[⟨1, "Livro A", Genero.Ficcao⟩], 2⟩ "Livro B"
      Genero.Outro).1 :=
  ((invariant_preservation_spec).2 ⟨[⟨1, "Livro A", Genero.Ficcao⟩], 2⟩
    (by decide)).1 "Livro B" Genero.Outro (by decide)

/-- C5 counterexample: the saturated state reached by `u32::MAX - 1`
consecutive adds from the fresh contract is reachable, and from it two
further adds both return `u32::MAX` — ids that are neither pairwise
distinct nor strictly increasing. -/
theorem add_ids_not_distinct_after_saturation :
    Reachable
      (exec new (List.replicate (u32Max - 1) (Op.add "t" Genero.Ficcao))) ∧
    addOutputs
        (exec new (List.replicate (u32Max - 1) (Op.add "t" Genero.Ficcao)))
        [Op.add "u" Genero.Outro, Op.add "v" Genero.Outro] =
      [u32Max, u32Max] ∧
    ¬ ([u32Max, u32Max] : List Nat).Nodup ∧
    ¬ List.Chain' (· < ·) ([u32Max, u32Max] : List Nat) := by
  refine ⟨⟨_, rfl⟩, ?_, by simp, by simp⟩
  have hp : (exec new
      (List.replicate (u32Max - 1) (Op.add "t" Genero.Ficcao))).proximo_id =
      u32Max := by
    rw [exec_replicate_add_proximo "t" Genero.Ficcao (u32Max - 1) new
      (by simp [new, u32Max])]
    simp only [new]
    unfold u32Max
    omega
  have h2 : satAdd1 u32Max = u32Max := by unfold satAdd1 u32Max; omega
  simp [addOutputs, step, adicionar_livro, hp, h2]

/-- C5 (amended): from any state whose counter plus the number of adds
stays within `u32::MAX + 1` (i.e. saturation is never hit), a sequence of
`adicionar_livro` calls returns pairwise-distinct, strictly increasing
ids; and from any state satisfying the catalog invariant with an in-range
counter, once a book with id `x` has been successfully removed, every
`adicionar_livro` in any later sequence of calls returns an id strictly
greater than `x`, so `x` is never reissued. -/
theorem add_ids_spec (s : BibliotecaStorage) :
    (∀ inputs : List (String × Genero),
      s.proximo_id + inputs.length ≤ u32Max + 1 →
        (addOutputs s (inputs.map fun p => Op.add p.1 p.2)).Nodup ∧
        List.Chain' (· < ·)
          (addOutputs s (inputs.map fun p => Op.add p.1 p.2))) ∧
    (Inv s → s.proximo_id ≤ u32Max →
      ∀ x, (remover_livro s x).2 = true →
        ∀ ops, ∀ y ∈ addOutputs (remover_livro s x).1 ops, x < y) := by
  constructor
  · intro inputs hlen
    rw [addOutputs_adds inputs s hlen]
    exact ⟨List.nodup_range' _ _,
      (List.pairwise_lt_range' _ _).chain'⟩
  · intro hinv hle x hx ops y hy
    have hxlt : x < s.proximo_id := by
      obtain ⟨b, hb, rfl⟩ :=
        (removerAux_found_iff x s.livros).1 hx
      exact hinv.2 b hb
    have hge : (remover_livro s x).1.proximo_id ≤ y :=
      addOutputs_ge ops (remover_livro s x).1 hle y hy
    exact lt_of_lt_of_le hxlt hge

/-- C5 witness: on a concrete one-book catalog, after removing the book
with id 1 a later add returns id 2, strictly above the removed id. -/
theorem add_ids_spec_witness :
    2 ∈ addOutputs (remover_livro ⟨[⟨1, "A", Genero.Ficcao⟩], 2⟩ 1).1
        [Op.add "B" Genero.Outro] ∧ 1 < 2 :=
  ⟨by decide,
   (add_ids_spec ⟨[⟨1, "A", Genero.Ficcao⟩], 2⟩).2 (by decide) (by decide) 1
     (by decide) [Op.add "B" Genero.Outro] 2 (by decide)⟩

/-- C6: the genre decoder succeeds exactly on the codes 0 through 5, with
the stable mapping 0 ↦ Ficcao, 1 ↦ Biografia, 2 ↦ Poesia, 3 ↦ Infantil,
4 ↦ Romance, 5 ↦ Outro, and rejects every other value with the
invalid-genre-code error. -/
theorem genero_decode_spec :
    generoTryFrom 0 = .ok .Ficcao ∧ generoTryFrom 1 = .ok .Biografia ∧
    generoTryFrom 2 = .ok .Poesia ∧ generoTryFrom 3 = .ok .Infantil ∧
    generoTryFrom 4 = .ok .Romance ∧ generoTryFrom 5 = .ok .Outro ∧
    ∀ v : Nat, 5 < v →
      generoTryFrom v = .error "Valor inválido para Genero" := by
  refine ⟨rfl, rfl, rfl, rfl, rfl, rfl, ?_⟩
  intro v hv
  obtain ⟨n, rfl⟩ : ∃ n, v = n + 6 := ⟨v - 6, by omega⟩
  rfl

/-- C6 witness: decoding 6 fails with the invalid-genre-code error. -/
theorem genero_decode_witness :
    generoTryFrom 6 = .error "Valor inválido para Genero" :=
  genero_decode_spec.2.2.2.2.2.2 6 (by decide)

/-- C7: `listar_livros` returns exactly the stored book list in insertion
order, mutates nothing (the `list` message leaves the state unchanged),
and returns the empty sequence on the fresh, empty catalog. -/
theorem listar_livros_spec (s : BibliotecaStorage) :
    listar_livros s = s.livros ∧ step s Op.list = s ∧
    listar_livros new = [] :=
  ⟨rfl, rfl, rfl⟩

/-- C8: on the freshly constructed catalog, adding "Livro A" with genre
Ficcao returns id 1, and listing then yields exactly that one book. -/
theorem add_list_round_trip :
    (adicionar_livro new "Livro A" Genero.Ficcao).2 = 1 ∧
    listar_livros (adicionar_livro new "Livro A" Genero.Ficcao).1 =
      [(⟨1, "Livro A", Genero.Ficcao⟩ : Livro)] :=
  ⟨rfl, rfl⟩

/-- C9: with the counter already at `u32::MAX`, `adicionar_livro` still
succeeds: it returns `u32::MAX`, appends a book with id `u32::MAX`, leaves
the counter at `u32::MAX`, and a further add again returns `u32::MAX`,
duplicating the id. -/
theorem add_at_saturation_spec (s : BibliotecaStorage) (t : String)
    (g : Genero) (t2 : String) (g2 : Genero)
    (h : s.proximo_id = u32Max) :
    (adicionar_livro s t g).2 = u32Max ∧
    (adicionar_livro s t g).1.livros = s.livros ++ [(⟨u32Max, t, g⟩ : Livro)] ∧
    (adicionar_livro s t g).1.proximo_id = u32Max ∧
    (adicionar_livro (adicionar_livro s t g).1 t2 g2).2 = u32Max := by
  refine ⟨h, by rw [← h]; rfl, ?_, ?_⟩ <;>
    · simp only [adicionar_livro, satAdd1, h]
      unfold u32Max
      omega

/-- C9 witness: on the empty catalog with a saturated counter, an add
returns `u32::MAX` and a second add returns it again. -/
theorem add_at_saturation_witness :
    (adicionar_livro ⟨[], u32Max⟩ "Livro A" Genero.Ficcao).2 = u32Max ∧
    (adicionar_livro (adicionar_livro ⟨[], u32Max⟩ "Livro A"
      Genero.Ficcao).1 "Livro B" Genero.Outro).2 = u32Max :=
  ⟨(add_at_saturation_spec ⟨[], u32Max⟩ "Livro A" Genero.Ficcao "Livro B"
      Genero.Outro rfl).1,
   (add_at_saturation_spec ⟨[], u32Max⟩ "Livro A" Genero.Ficcao "Livro B"
      Genero.Outro rfl).2.2.2⟩

/-- C10: `atualizar_livro` and `remover_livro` never change `proximo_id`
(nor does the `list` message; only `adicionar_livro` touches it), and
`atualizar_livro` additionally keeps the number of books and the sequence
of their ids intact, match or no match. -/
theorem frame_spec (s : BibliotecaStorage) (id : Nat) (t : String)
    (g : Genero) :
    (atualizar_livro s id t g).1.proximo_id = s.proximo_id ∧
    (remover_livro s id).1.proximo_id = s.proximo_id ∧
    (step s Op.list).proximo_id = s.proximo_id ∧
    (atualizar_livro s id t g).1.livros.map Livro.id =
      s.livros.map Livro.id ∧
    (atualizar_livro s id t g).1.livros.length = s.livros.length := by
  refine ⟨rfl, rfl, rfl, atualizarAux_map_id id t g s.livros, ?_⟩
  have hmap := congrArg List.length (atualizarAux_map_id id t g s.livros)
  simpa using hmap

end Biblioteca
